import Mathlib

/-!
Verification of the weighted kNN monitoring module (`src/knn_predictor.py`).

The Python source is shallowly embedded: tensors become lists of rows over
`ℝ`, each `torch` operation used by the source becomes a Lean function with
the same data flow, and the `BenchmarkModule` lifecycle hooks become
functions over an explicit module state.  Exceptional behaviour of the
`torch` operations (shape checks, index bounds) is modelled by an
`Except`-returning variant that performs the checks in the order the
operations execute.
-/

namespace KnnPredictor

/-- A 2-D tensor, stored as its list of rows. -/
abbrev Tensor := List (List ℝ)

/-- Number of columns of a (rectangular) 2-D tensor: the length of its
first row (`0` for an empty tensor). -/
def width (A : Tensor) : ℕ :=
  (A.head?.map List.length).getD 0

/-- Dot product of two rows, `Σ u[i] * v[i]`. -/
def dot (u v : List ℝ) : ℝ :=
  (List.zipWith (· * ·) u v).sum

/-- Column `j` of a tensor (entry `j` of every row, `0` past the end). -/
def getCol (A : Tensor) (j : ℕ) : List ℝ :=
  A.map (fun r => r.getD j 0)

/-- `torch.mm`: matrix product of a `B×D` tensor with a `D×N` tensor,
entry `(b, j)` being the dot product of query row `b` with bank column `j`
(source line 20: `sim_matrix = torch.mm(feature, feature_bank)`). -/
def mmMat (A B : Tensor) : Tensor :=
  A.map (fun r => (List.range (width B)).map (fun j => dot r (getCol B j)))

/-- The deterministic ranking order used to model `torch.topk` /
`torch.argsort(descending=True)`: index `i` comes before index `j` when its
value is strictly larger, ties being broken by ascending index. -/
def rankRel (v : ℕ → ℝ) (i j : ℕ) : Prop :=
  v j < v i ∨ (v i = v j ∧ i ≤ j)

noncomputable instance rankRelDecidable (v : ℕ → ℝ) : DecidableRel (rankRel v) :=
  fun _ _ => instDecidableOr

/-- All indices `[0, n)` sorted by descending value (ties by ascending
index): the index permutation produced by a descending sort. -/
noncomputable def sortIdx (v : ℕ → ℝ) (n : ℕ) : List ℕ :=
  List.insertionSort (rankRel v) (List.range n)

/-- `torch.topk(k, dim=-1)` values: for each row, the `k` largest entries in
descending order (source line 22, first component of
`sim_weight, sim_indices = sim_matrix.topk(k=knn_k, dim=-1)`). -/
noncomputable def topkValues (S : Tensor) (k : ℕ) : Tensor :=
  S.map (fun row => (((sortIdx (fun j => row.getD j 0) row.length).take k).map
    (fun j => row.getD j 0)))

/-- `torch.topk(k, dim=-1)` indices: for each row, the positions of the `k`
largest entries, in descending order of value (source line 22, second
component). -/
noncomputable def topkIndices (S : Tensor) (k : ℕ) : List (List ℕ) :=
  S.map (fun row => (sortIdx (fun j => row.getD j 0) row.length).take k)

/-- `torch.gather(feature_labels.expand(B, -1), dim=-1, index=sim_indices)`
(source line 24): replace every selected bank index by its bank label. -/
def gatherRows (labels : List ℕ) (I : List (List ℕ)) : List (List ℕ) :=
  I.map (List.map (fun j => labels.getD j 0))

/-- `(sim_weight / knn_t).exp()` (source line 26): elementwise reweighting
of the selected similarities. -/
noncomputable def expDivRows (W : Tensor) (t : ℝ) : Tensor :=
  W.map (List.map (fun s => Real.exp (s / t)))

/-- Lines 28–32 of the source: the one-hot encoding of the gathered labels
multiplied by the weights and summed over the `K` axis.  Entry `(b, c)` is
`Σ_k one_hot(label_{b,k})[c] * weight_{b,k}`. -/
def scoreRows (L : List (List ℕ)) (W : Tensor) (classes : ℕ) : Tensor :=
  (List.zip L W).map (fun p =>
    (List.range classes).map (fun c =>
      ((List.zip p.1 p.2).map (fun q => (if q.1 = c then (1 : ℝ) else 0) * q.2)).sum))

/-- `pred_scores.argsort(dim=-1, descending=True)` (source line 33): each
row of class scores is replaced by the class indices sorted by descending
score. -/
noncomputable def argsortRows (P : Tensor) : List (List ℕ) :=
  P.map (fun row => sortIdx (fun c => row.getD c 0) row.length)

instance rankRelTotal (v : ℕ → ℝ) : IsTotal ℕ (rankRel v) := by
  constructor
  intro i j
  rcases lt_trichotomy (v i) (v j) with h | h | h
  · exact Or.inr (Or.inl h)
  · rcases Nat.le_total i j with hij | hij
    · exact Or.inl (Or.inr ⟨h, hij⟩)
    · exact Or.inr (Or.inr ⟨h.symm, hij⟩)
  · exact Or.inl (Or.inl h)

instance rankRelTrans (v : ℕ → ℝ) : IsTrans ℕ (rankRel v) := by
  constructor
  intro i j k hij hjk
  rcases hij with h1 | ⟨h1, h1le⟩ <;> rcases hjk with h2 | ⟨h2, h2le⟩
  · exact Or.inl (h2.trans h1)
  · exact Or.inl (h2 ▸ h1)
  · exact Or.inl (h1 ▸ h2)
  · exact Or.inr ⟨h1.trans h2, h1le.trans h2le⟩

theorem sortIdx_perm (v : ℕ → ℝ) (n : ℕ) : List.Perm (sortIdx v n) (List.range n) :=
  List.perm_insertionSort (rankRel v) (List.range n)

theorem sortIdx_sorted (v : ℕ → ℝ) (n : ℕ) : List.Sorted (rankRel v) (sortIdx v n) :=
  List.sorted_insertionSort (rankRel v) (List.range n)

theorem sortIdx_length (v : ℕ → ℝ) (n : ℕ) : (sortIdx v n).length = n := by
  simpa using (sortIdx_perm v n).length_eq

theorem mem_sortIdx (v : ℕ → ℝ) (n i : ℕ) : i ∈ sortIdx v n ↔ i < n := by
  rw [(sortIdx_perm v n).mem_iff, List.mem_range]

theorem sortIdx_nodup (v : ℕ → ℝ) (n : ℕ) : (sortIdx v n).Nodup :=
  (sortIdx_perm v n).nodup_iff.mpr (List.nodup_range n)

/-- Everything kept by `take k` on a descending sort dominates everything
dropped. -/
theorem sortIdx_take_dominates (v : ℕ → ℝ) (n k : ℕ) :
    ∀ i ∈ (sortIdx v n).take k, ∀ j ∈ (sortIdx v n).drop k, v j ≤ v i := by
  have hs := sortIdx_sorted v n
  rw [List.Sorted, ← List.take_append_drop k (sortIdx v n), List.pairwise_append] at hs
  intro i hi j hj
  rcases hs.2.2 i hi j hj with h | ⟨h, _⟩
  · exact h.le
  · exact h.ge

/-- A strictly dominant index is the head of the descending sort. -/
theorem sortIdx_head_strictMax (v : ℕ → ℝ) (n j : ℕ) (hj : j < n)
    (hmax : ∀ i, i < n → i ≠ j → v i < v j) :
    (sortIdx v n).head? = some j := by
  have hjmem : j ∈ sortIdx v n := (mem_sortIdx v n j).mpr hj
  cases hl : sortIdx v n with
  | nil => rw [hl] at hjmem; simp at hjmem
  | cons a t =>
    have hamem : a ∈ sortIdx v n := by rw [hl]; exact List.mem_cons_self a t
    have han : a < n := (mem_sortIdx v n a).mp hamem
    by_cases haj : a = j
    · rw [haj]; rfl
    · exfalso
      have hjt : j ∈ t := by
        rw [hl] at hjmem
        rcases List.mem_cons.mp hjmem with h | h
        · exact absurd h.symm haj
        · exact h
      have hrel : rankRel v a j := by
        have := sortIdx_sorted v n
        rw [hl] at this
        exact List.rel_of_sorted_cons this j hjt
      have hlt : v a < v j := hmax a han haj
      rcases hrel with h | ⟨h, _⟩
      · exact absurd h (not_lt.mpr hlt.le)
      · exact absurd h (ne_of_lt hlt)

theorem orderedInsert_congr {α : Type} (r s : α → α → Prop) [DecidableRel r] [DecidableRel s]
    (a : α) (l : List α) (h : ∀ b ∈ l, r a b ↔ s a b) :
    List.orderedInsert r a l = List.orderedInsert s a l := by
  induction l with
  | nil => rfl
  | cons b t ih =>
    simp only [List.orderedInsert]
    by_cases hr : r a b
    · rw [if_pos hr, if_pos ((h b (List.mem_cons_self b t)).mp hr)]
    · rw [if_neg hr, if_neg (fun hs => hr ((h b (List.mem_cons_self b t)).mpr hs)),
        ih (fun c hc => h c (List.mem_cons_of_mem b hc))]

theorem insertionSort_congr {α : Type} (r s : α → α → Prop) [DecidableRel r] [DecidableRel s]
    (l : List α) (h : ∀ a ∈ l, ∀ b ∈ l, r a b ↔ s a b) :
    List.insertionSort r l = List.insertionSort s l := by
  induction l with
  | nil => rfl
  | cons a t ih =>
    simp only [List.insertionSort]
    rw [ih (fun x hx y hy =>
      h x (List.mem_cons_of_mem a hx) y (List.mem_cons_of_mem a hy))]
    apply orderedInsert_congr
    intro b hb
    have hbt : b ∈ t := (List.perm_insertionSort s t).mem_iff.mp hb
    exact h a (List.mem_cons_self a t) b (List.mem_cons_of_mem a hbt)

theorem sortIdx_congr (v v' : ℕ → ℝ) (n : ℕ) (h : ∀ i, i < n → v i = v' i) :
    sortIdx v n = sortIdx v' n := by
  apply insertionSort_congr
  intro a ha b hb
  rw [List.mem_range] at ha hb
  unfold rankRel
  rw [h a ha, h b hb]

/-- Shallow embedding of `knn_predict` (source lines 9–34): cosine
similarities by matrix product, top-`k` neighbour selection, label gather,
exponential reweighting by temperature, one-hot weighted vote accumulation,
and descending argsort of the per-class scores. -/
noncomputable def knn_predict (feature feature_bank : Tensor) (feature_labels : List ℕ)
    (classes knn_k : ℕ) (knn_t : ℝ) : List (List ℕ) :=
  let sim_matrix := mmMat feature feature_bank
  let sim_weight := topkValues sim_matrix knn_k
  let sim_indices := topkIndices sim_matrix knn_k
  let sim_labels := gatherRows feature_labels sim_indices
  let sim_weight2 := expDivRows sim_weight knn_t
  let pred_scores := scoreRows sim_labels sim_weight2 classes
  argsortRows pred_scores

theorem getD_map_of_lt {α β : Type} (f : α → β) (l : List α) {b : ℕ} (hb : b < l.length)
    (d : β) (d₀ : α) : (l.map f).getD b d = f (l.getD b d₀) := by
  rw [List.getD_eq_getElem?_getD, List.getElem?_map, List.getElem?_eq_getElem hb,
    List.getD_eq_getElem?_getD, List.getElem?_eq_getElem hb]
  rfl

theorem getD_map_range {α : Type} (g : ℕ → α) {n j : ℕ} (hj : j < n) (d : α) :
    ((List.range n).map g).getD j d = g j := by
  rw [List.getD_eq_getElem?_getD, List.getElem?_map, List.getElem?_range hj]
  rfl

/-- Cosine similarity of a query row to bank column `j`: the dot product
computed by the matrix multiply of source line 20. -/
def simTo (bank : Tensor) (f : List ℝ) (j : ℕ) : ℝ := dot f (getCol bank j)

/-- The bank indices of the `k` neighbours the code selects for one query
row: the first `k` entries of the column indices sorted by descending
similarity (source line 22). -/
noncomputable def selectedIdx (bank : Tensor) (f : List ℝ) (k : ℕ) : List ℕ :=
  (sortIdx (simTo bank f) (width bank)).take k

/-- The per-class score the code accumulates for one query row: the one-hot
label indicator times the reweighted similarity, summed over the selected
neighbours (source lines 26–32). -/
noncomputable def rowScore (bank : Tensor) (labels : List ℕ) (f : List ℝ) (k : ℕ) (t : ℝ)
    (c : ℕ) : ℝ :=
  ((selectedIdx bank f k).map
    (fun i => (if labels.getD i 0 = c then (1 : ℝ) else 0) * Real.exp (simTo bank f i / t))).sum

/-- The vote score in the words of the spec (Step 5): the sum of the
weights `exp(s / temperature)` over exactly those selected neighbours whose
bank label equals `c`. -/
noncomputable def voteScore (bank : Tensor) (labels : List ℕ) (f : List ℝ) (k : ℕ) (t : ℝ)
    (c : ℕ) : ℝ :=
  (((selectedIdx bank f k).filter (fun i => labels.getD i 0 = c)).map
    (fun i => Real.exp (simTo bank f i / t))).sum

/-- The code's one-hot accumulation computes exactly the spec's
filtered sum. -/
theorem sum_indicator_mul_eq_sum_filter (lab : ℕ → ℕ) (w : ℕ → ℝ) (c : ℕ) (sel : List ℕ) :
    (sel.map (fun i => (if lab i = c then (1 : ℝ) else 0) * w i)).sum =
      ((sel.filter (fun i => lab i = c)).map w).sum := by
  induction sel with
  | nil => rfl
  | cons a s ih =>
    simp only [List.map_cons, List.sum_cons, List.filter_cons]
    by_cases h : lab a = c
    · rw [if_pos h, one_mul, if_pos (by simpa using h), List.map_cons, List.sum_cons, ih]
    · rw [if_neg h, zero_mul, zero_add, if_neg (by simpa using h), ih]

theorem rowScore_eq_voteScore (bank : Tensor) (labels : List ℕ) (f : List ℝ) (k : ℕ) (t : ℝ)
    (c : ℕ) : rowScore bank labels f k t c = voteScore bank labels f k t c :=
  sum_indicator_mul_eq_sum_filter (fun i => labels.getD i 0)
    (fun i => Real.exp (simTo bank f i / t)) c (selectedIdx bank f k)

theorem knn_predict_getD (feature bank : Tensor) (labels : List ℕ) (classes k : ℕ) (t : ℝ)
    {b : ℕ} (hb : b < feature.length) :
    (knn_predict feature bank labels classes k t).getD b [] =
      sortIdx (rowScore bank labels (feature.getD b []) k t) classes := by
  unfold knn_predict mmMat topkValues topkIndices gatherRows expDivRows scoreRows argsortRows
  simp only [List.map_map, List.zip_map', Function.comp_def]
  rw [getD_map_of_lt _ feature hb _ []]
  set f := feature.getD b [] with hf
  set srow := (List.range (width bank)).map (fun j => dot f (getCol bank j)) with hsrow
  have hlen : srow.length = width bank := by simp [hsrow]
  have hagree : ∀ j, j < width bank → srow.getD j 0 = simTo bank f j := by
    intro j hj
    rw [hsrow, getD_map_range _ hj]
    rfl
  have hsel : List.take k (sortIdx (fun j => srow.getD j 0) srow.length) =
      selectedIdx bank f k := by
    rw [hlen, selectedIdx, sortIdx_congr (fun j => srow.getD j 0) (simTo bank f) (width bank) hagree]
  rw [hsel]
  have hbiglen : ((List.range classes).map (fun c =>
      ((selectedIdx bank f k).map
        (fun x => (if labels.getD x 0 = c then (1 : ℝ) else 0) *
          Real.exp (srow.getD x 0 / t))).sum)).length = classes := by simp
  rw [hbiglen]
  apply sortIdx_congr
  intro c hc
  rw [getD_map_range _ hc, rowScore]
  congr 1
  apply List.map_congr_left
  intro i hi
  rw [hagree i ((mem_sortIdx _ _ _).mp (List.mem_of_mem_take hi))]

/-- The head of a descending sort carries a maximal value among `[0, n)`. -/
theorem sortIdx_headD_max (v : ℕ → ℝ) (n : ℕ) (hn : 1 ≤ n) :
    ∀ c, c < n → v c ≤ v ((sortIdx v n).headD 0) := by
  intro c hc
  have hcm : c ∈ sortIdx v n := (mem_sortIdx v n c).mpr hc
  cases hl : sortIdx v n with
  | nil =>
    exfalso
    have := sortIdx_length v n
    rw [hl] at this
    simp at this
    omega
  | cons a s =>
    rw [hl] at hcm
    rcases List.mem_cons.mp hcm with h | h
    · rw [h]; exact le_rfl
    · have hs := sortIdx_sorted v n
      rw [hl] at hs
      rcases List.rel_of_sorted_cons hs c h with hlt | ⟨heq, _⟩
      · exact hlt.le
      · exact heq.ge

/-- The full conclusion of claim C1 for query row `b`: the selected
neighbours are `knn_k` distinct bank columns dominating all unselected
columns in similarity, and the returned row is a permutation of the class
indices `[0, classes)` sorted by descending spec vote score, its head
maximising that score. -/
def RankedRowOk (feature bank : Tensor) (labels : List ℕ) (classes k : ℕ) (t : ℝ)
    (b : ℕ) : Prop :=
  let f := feature.getD b []
  let sel := selectedIdx bank f k
  let score := voteScore bank labels f k t
  let row := (knn_predict feature bank labels classes k t).getD b []
  sel.length = k ∧
  sel.Nodup ∧
  (∀ i ∈ sel, i < width bank) ∧
  (∀ i ∈ sel, ∀ j, j < width bank → j ∉ sel → simTo bank f j ≤ simTo bank f i) ∧
  List.Perm row (List.range classes) ∧
  List.Sorted (fun c d => score d ≤ score c) row ∧
  (∀ c, c < classes → score c ≤ score (row.headD 0))

/-- C1: under the classifier preconditions, `knn_predict` returns one row
per query; each row is the full permutation of the class indices
`[0, classes)` sorted by descending vote score, where the score of class
`c` is the sum of `exp(s / temperature)` over the `k` selected neighbours
whose bank label is `c`, and the head of the row maximises that score. -/
theorem knn_predict_ranks_classes_by_weighted_vote
    (feature bank : Tensor) (labels : List ℕ) (classes k : ℕ) (t : ℝ)
    (hrect : ∀ r ∈ bank, r.length = width bank)
    (hfeat : ∀ r ∈ feature, r.length = bank.length)
    (hlab : labels.length = width bank)
    (hlabc : ∀ l ∈ labels, l < classes)
    (hk1 : 1 ≤ k) (hkN : k ≤ width bank) (ht : 0 < t) (hcls : 1 ≤ classes) :
    (knn_predict feature bank labels classes k t).length = feature.length ∧
    ∀ b, b < feature.length → RankedRowOk feature bank labels classes k t b := by
  constructor
  · simp [knn_predict, argsortRows, scoreRows, gatherRows, expDivRows, topkValues,
      topkIndices, mmMat]
  intro b hb
  unfold RankedRowOk
  refine ⟨?_, ?_, ?_, ?_, ?_, ?_, ?_⟩
  · rw [selectedIdx, List.length_take, sortIdx_length]
    exact Nat.min_eq_left hkN
  · exact (List.take_sublist k _).nodup (sortIdx_nodup _ _)
  · intro i hi
    exact (mem_sortIdx _ _ _).mp (List.mem_of_mem_take hi)
  · intro i hi j hjN hjsel
    have hjmem : j ∈ sortIdx (simTo bank (feature.getD b [])) (width bank) :=
      (mem_sortIdx _ _ _).mpr hjN
    rw [← List.take_append_drop k
      (sortIdx (simTo bank (feature.getD b [])) (width bank)), List.mem_append] at hjmem
    rcases hjmem with h | h
    · exact absurd h hjsel
    · exact sortIdx_take_dominates _ _ _ i hi j h
  · rw [knn_predict_getD feature bank labels classes k t hb]
    exact sortIdx_perm _ _
  · rw [knn_predict_getD feature bank labels classes k t hb]
    have := sortIdx_sorted (rowScore bank labels (feature.getD b []) k t) classes
    refine List.Pairwise.imp ?_ this
    intro c d hcd
    rw [← rowScore_eq_voteScore, ← rowScore_eq_voteScore]
    rcases hcd with h | ⟨h, _⟩
    · exact h.le
    · exact h.ge
  · intro c hc
    rw [knn_predict_getD feature bank labels classes k t hb,
      ← rowScore_eq_voteScore, ← rowScore_eq_voteScore]
    exact sortIdx_headD_max _ classes hcls c hc

theorem knn_predict_ranks_classes_by_weighted_vote_witness :
    (knn_predict [[1, 0]] [[1, 0], [0, 1]] [0, 1] 2 1 1).length = 1 ∧
    RankedRowOk [[1, 0]] [[1, 0], [0, 1]] [0, 1] 2 1 1 0 := by
  have h := knn_predict_ranks_classes_by_weighted_vote [[1, 0]] [[1, 0], [0, 1]] [0, 1] 2 1 1
    (by intro r hr; simp [width] at hr ⊢; rcases hr with h | h <;> rw [h] <;> rfl)
    (by intro r hr; simp at hr; rw [hr]; rfl)
    (by rfl)
    (by decide)
    (by norm_num)
    (by norm_num [width])
    (by norm_num)
    (by norm_num)
  exact ⟨h.1, h.2 0 (by norm_num)⟩

theorem headD_eq_of_head_eq_some {α : Type} {l : List α} {a : α} (d : α)
    (h : l.head? = some a) : l.headD d = a := by
  cases l with
  | nil => simp at h
  | cons b t =>
    simp at h
    exact h

/-- C2: with `knn_k = 1`, the class ranked first for a query is exactly the
bank label of the unique bank column of largest similarity (dot product)
to that query. -/
theorem knn_predict_k1_top_is_nearest_label
    (feature bank : Tensor) (labels : List ℕ) (classes : ℕ) (t : ℝ)
    (hlab : labels.length = width bank)
    (hlabc : ∀ l ∈ labels, l < classes) :
    ∀ b, b < feature.length → ∀ j, j < width bank →
      (∀ i, i < width bank → i ≠ j →
        simTo bank (feature.getD b []) i < simTo bank (feature.getD b []) j) →
      ((knn_predict feature bank labels classes 1 t).getD b []).headD 0 =
        labels.getD j 0 := by
  intro b hb j hjN hmax
  set f := feature.getD b [] with hf
  have hsel : selectedIdx bank f 1 = [j] := by
    unfold selectedIdx
    have hh := sortIdx_head_strictMax (simTo bank f) (width bank) j hjN hmax
    cases hl : sortIdx (simTo bank f) (width bank) with
    | nil => rw [hl] at hh; simp at hh
    | cons a s =>
      rw [hl] at hh
      simp at hh
      rw [hh]
      rfl
  have hscore : ∀ c, rowScore bank labels f 1 t c =
      (if labels.getD j 0 = c then (1 : ℝ) else 0) * Real.exp (simTo bank f j / t) := by
    intro c
    rw [rowScore, hsel]
    simp
  have hlabj : labels.getD j 0 < classes := by
    apply hlabc
    have hjl : j < labels.length := by omega
    rw [List.getD_eq_getElem labels 0 hjl]
    exact List.getElem_mem hjl
  have hstrict : ∀ c, c < classes → c ≠ labels.getD j 0 →
      rowScore bank labels f 1 t c < rowScore bank labels f 1 t (labels.getD j 0) := by
    intro c _ hne
    rw [hscore, hscore, if_pos rfl, if_neg (fun h => hne h.symm), one_mul, zero_mul]
    exact Real.exp_pos _
  rw [knn_predict_getD feature bank labels classes 1 t hb]
  exact headD_eq_of_head_eq_some 0
    (sortIdx_head_strictMax (rowScore bank labels f 1 t) classes
      (labels.getD j 0) hlabj hstrict)

theorem knn_predict_k1_top_is_nearest_label_witness :
    ((knn_predict [[1, 0]] [[1, 0], [0, 1]] [1, 0] 2 1 1).getD 0 []).headD 0 = 1 := by
  have h := knn_predict_k1_top_is_nearest_label [[1, 0]] [[1, 0], [0, 1]] [1, 0] 2 1
    (by rfl) (by decide) 0 (by norm_num) 0 (by norm_num [width])
    (by
      intro i hi hne
      norm_num [width] at hi
      interval_cases i
      · exact absurd rfl hne
      · norm_num [simTo, dot, getCol])
  simpa using h

/-- The state of a `BenchmarkModule` (source lines 37–57) as far as the kNN
monitoring callback observes it: the encoder train/eval mode, the running
`max_accuracy`, the kNN configuration, and the optional feature bank (the
`feature_bank` / `targets_bank` attributes, absent until the first
successful build — `none` models the failing `hasattr` test). -/
structure BenchmarkModule where
  resnet_training : Bool
  max_accuracy : ℝ
  classes : ℕ
  knn_k : ℕ
  knn_t : ℝ
  bank : Option (Tensor × List ℕ)

/-- The accuracy of one validation pass: summed correct counts over summed
sample counts. -/
noncomputable def passAccuracy (outputs : List (ℕ × ℝ)) : ℝ :=
  (outputs.map Prod.snd).sum / ((outputs.map Prod.fst).sum : ℝ)

/-- `validation_epoch_end` (source lines 109–119): when the collected
outputs are non-empty, sum the per-batch `(num, top1)` pairs, compute
`acc = total_top1 / total_num` and raise `max_accuracy` to `acc` when it
improves. -/
noncomputable def validation_epoch_end (m : BenchmarkModule) (outputs : List (ℕ × ℝ)) :
    BenchmarkModule :=
  if outputs.isEmpty then m
  else
    let total_num := (outputs.map Prod.fst).sum
    let total_top1 := (outputs.map Prod.snd).sum
    let acc := total_top1 / (total_num : ℝ)
    if m.max_accuracy < acc then { m with max_accuracy := acc } else m

theorem validation_epoch_end_max_eq (m : BenchmarkModule) (outputs : List (ℕ × ℝ))
    (h : outputs ≠ []) :
    (validation_epoch_end m outputs).max_accuracy =
      max m.max_accuracy (passAccuracy outputs) := by
  unfold validation_epoch_end
  rw [if_neg (by simpa using h)]
  simp only
  split_ifs with hlt
  · exact (max_eq_right hlt.le).symm
  · exact (max_eq_left (not_lt.mp hlt)).symm

theorem validation_epoch_end_fields (m : BenchmarkModule) (outputs : List (ℕ × ℝ)) :
    (validation_epoch_end m outputs).resnet_training = m.resnet_training ∧
    (validation_epoch_end m outputs).classes = m.classes ∧
    (validation_epoch_end m outputs).knn_k = m.knn_k ∧
    (validation_epoch_end m outputs).knn_t = m.knn_t ∧
    (validation_epoch_end m outputs).bank = m.bank := by
  simp only [validation_epoch_end]
  split_ifs <;> simp

theorem foldl_validation_epoch_end_max (oss : List (List (ℕ × ℝ))) :
    ∀ m : BenchmarkModule, (∀ os ∈ oss, os ≠ []) →
      (oss.foldl validation_epoch_end m).max_accuracy =
        (oss.map passAccuracy).foldl max m.max_accuracy := by
  induction oss with
  | nil => intro m _; rfl
  | cons os rest ih =>
    intro m hne
    rw [List.foldl_cons, List.map_cons, List.foldl_cons,
      ih (validation_epoch_end m os) (fun o ho => hne o (List.mem_cons_of_mem os ho)),
      validation_epoch_end_max_eq m os (hne os (List.mem_cons_self os rest))]

/-- C7: the aggregator computes `accuracy = total_correct / total_samples`
over the summed batches and sets `max_accuracy` to
`max (max_accuracy, accuracy)`; hence `max_accuracy` never decreases and,
across successive passes, equals the maximum of its starting value and
every accuracy observed. -/
theorem validation_epoch_end_max_accuracy_invariant
    (m : BenchmarkModule) (outputs : List (ℕ × ℝ)) (oss : List (List (ℕ × ℝ))) :
    (outputs ≠ [] →
      (validation_epoch_end m outputs).max_accuracy =
        max m.max_accuracy (passAccuracy outputs)) ∧
    m.max_accuracy ≤ (validation_epoch_end m outputs).max_accuracy ∧
    ((∀ os ∈ oss, os ≠ []) →
      (oss.foldl validation_epoch_end m).max_accuracy =
        (oss.map passAccuracy).foldl max m.max_accuracy) := by
  refine ⟨validation_epoch_end_max_eq m outputs, ?_, foldl_validation_epoch_end_max oss m⟩
  simp only [validation_epoch_end]
  split_ifs with h1 h2
  · exact le_rfl
  · exact le_of_lt h2
  · exact le_rfl

/-- The sample module used to instantiate witnesses: fresh state with
`max_accuracy = 1/2` and no bank. -/
noncomputable def sampleModule : BenchmarkModule :=
  ⟨true, 1 / 2, 10, 200, 1 / 10, none⟩

theorem validation_epoch_end_max_accuracy_invariant_witness :
    ((validation_epoch_end sampleModule [(10, 7), (5, 5)]).max_accuracy =
      max sampleModule.max_accuracy (passAccuracy [(10, 7), (5, 5)])) ∧
    sampleModule.max_accuracy ≤
      (validation_epoch_end sampleModule [(10, 7), (5, 5)]).max_accuracy ∧
    (([[(10, 7), (5, 5)]].foldl validation_epoch_end sampleModule).max_accuracy =
      ([[(10, 7), (5, 5)]].map passAccuracy).foldl max sampleModule.max_accuracy) := by
  have h := validation_epoch_end_max_accuracy_invariant sampleModule [(10, 7), (5, 5)]
    [[(10, 7), (5, 5)]]
  refine ⟨h.1 (by simp), h.2.1, h.2.2 ?_⟩
  intro os hos
  rw [List.mem_singleton] at hos
  rw [hos]
  simp

/-- The EMA update loop of `training_step` (source lines 67–68) under
Python semantics: the `for` target `target_params` is a local name, and the
assignment in the body rebinds that local to a freshly computed tensor
(`*` and `+` allocate new tensors) without writing anything back into
`target_resnet.parameters()`; the collection of target parameters is
therefore unchanged when the loop finishes. -/
def ema_update_loop (target_params_list online_params_list : List (List ℝ)) (taw : ℝ) :
    List (List ℝ) :=
  (List.zip target_params_list online_params_list).foldl
    (fun acc pair =>
      let target_params :=
        pair.1.zipWith (fun tp op => tp * taw + (1 - taw) * op) pair.2
      let _ := target_params
      acc)
    target_params_list

/-- The EMA update as the spec requires it to behave (design note: "blend
target-network parameters toward online-network parameters by a decay
factor, in place, for every parameter tensor pair"): each target parameter
becomes `taw * target + (1 - taw) * online` under a 1:1 pairing. -/
def ema_update_required (target_params_list online_params_list : List (List ℝ)) (taw : ℝ) :
    List (List ℝ) :=
  List.zipWith (fun tp op => tp.zipWith (fun a b => a * taw + (1 - taw) * b) op)
    target_params_list online_params_list

/-- C8: the loop written at source lines 67–68 never updates the target
parameters — it is a no-op on every input — while the required EMA update
changes them; at `taw = 1/2`, `target = [[0]]`, `online = [[1]]` the code
leaves `[[0]]` where the claim requires `[[1/2]]`. -/
theorem ema_update_loop_is_noop :
    (∀ (target online : List (List ℝ)) (taw : ℝ),
      ema_update_loop target online taw = target) ∧
    ema_update_loop [[0]] [[1]] (1 / 2) = [[0]] ∧
    ema_update_required [[0]] [[1]] (1 / 2) = [[1 / 2]] ∧
    ema_update_loop [[0]] [[1]] (1 / 2) ≠ ema_update_required [[0]] [[1]] (1 / 2) := by
  have hloop : ∀ (target online : List (List ℝ)) (taw : ℝ),
      ema_update_loop target online taw = target := by
    intro target online taw
    simp only [ema_update_loop]
    generalize List.zip target online = l
    induction l generalizing target with
    | nil => rfl
    | cons p s ih => exact ih target
  have hreq : ema_update_required [[0]] [[1]] (1 / 2) = [[1 / 2]] := by
    simp [ema_update_required]
    norm_num
  refine ⟨hloop, hloop _ _ _, hreq, ?_⟩
  rw [hloop, hreq]
  intro h
  have := List.head_eq_of_cons_eq h
  have h0 : (0 : ℝ) = 1 / 2 := List.head_eq_of_cons_eq this
  norm_num at h0

/-- Python attribute lookup on the module object: `self.name` raises
`AttributeError` when `name` is not among the instance attributes. -/
def getattr (attrs : List String) (name : String) : Except String Unit :=
  if name ∈ attrs then Except.ok () else Except.error ("AttributeError: " ++ name)

/-- The instance attributes `BenchmarkModule.__init__` assigns
(source lines 49–57). -/
def init_attrs : List String :=
  ["resnet", "max_accuracy", "dataloader_kNN", "gpus", "classes", "knn_k", "knn_t"]

/-- The sequence of attribute reads `training_step` performs, in source
order (lines 59–72): `self.online_resnet`, `self.target_resnet`,
`self.predictor`, `self.mse_loss`, the loop reads of `self.target_resnet`
and `self.online_resnet`, the reads of `self.taw` (twice), `self.step`,
`self.total_steps` and `self.step` again, followed by the
`print(f...)` statement whose bare name `step` is defined in no scope, so
the step can never reach `return loss`. -/
def training_step_lookups (attrs : List String) : Except String Unit :=
  (getattr attrs "online_resnet").bind (fun _ =>
  (getattr attrs "target_resnet").bind (fun _ =>
  (getattr attrs "predictor").bind (fun _ =>
  (getattr attrs "mse_loss").bind (fun _ =>
  (getattr attrs "target_resnet").bind (fun _ =>
  (getattr attrs "online_resnet").bind (fun _ =>
  (getattr attrs "taw").bind (fun _ =>
  (getattr attrs "taw").bind (fun _ =>
  (getattr attrs "step").bind (fun _ =>
  (getattr attrs "total_steps").bind (fun _ =>
  (getattr attrs "step").bind (fun _ =>
  Except.error "NameError: name step is not defined")))))))))))

/-- C10: on a freshly constructed `BenchmarkModule`, `training_step`
raises at its very first attribute read (`self.online_resnet` is never
assigned by any method), and indeed no attribute assignment can make it
return a loss, because the print statement reads an undefined bare name. -/
theorem training_step_always_raises :
    training_step_lookups init_attrs = Except.error "AttributeError: online_resnet" ∧
    ∀ attrs : List String, ∃ e, training_step_lookups attrs = Except.error e := by
  constructor
  · rfl
  · intro attrs
    simp only [training_step_lookups, getattr]
    split_ifs <;> simp [Except.bind]

/-- The default `eps` of `torch.nn.functional.normalize`, `1e-12`. -/
noncomputable def normEps : ℝ := 1 / 10 ^ 12

/-- L2 norm of a row. -/
noncomputable def l2norm (v : List ℝ) : ℝ :=
  Real.sqrt ((v.map (fun x => x * x)).sum)

/-- `F.normalize(x, dim=1)` applied to one row: `x / max(‖x‖₂, eps)`
(source lines 90 and 103). -/
noncomputable def normalizeRow (v : List ℝ) : List ℝ :=
  v.map (fun x => x / max (l2norm v) normEps)

theorem length_normalizeRow (v : List ℝ) : (normalizeRow v).length = v.length := by
  simp [normalizeRow]

theorem sumSq_nonneg (v : List ℝ) : 0 ≤ (v.map (fun x => x * x)).sum := by
  apply List.sum_nonneg
  intro x hx
  rcases List.mem_map.mp hx with ⟨y, _, rfl⟩
  exact mul_self_nonneg y

theorem normEps_pos : (0 : ℝ) < normEps := by norm_num [normEps]

/-- A row whose norm clears the `eps` clamp has norm exactly `1` after
normalization. -/
theorem l2norm_normalizeRow (v : List ℝ) (h : normEps ≤ l2norm v) :
    l2norm (normalizeRow v) = 1 := by
  have hn : max (l2norm v) normEps = l2norm v := max_eq_left h
  have hpos : 0 < l2norm v := lt_of_lt_of_le normEps_pos h
  have hS : l2norm v * l2norm v = (v.map (fun x => x * x)).sum :=
    Real.mul_self_sqrt (sumSq_nonneg v)
  have hSpos : 0 < (v.map (fun x => x * x)).sum := by
    unfold l2norm at hpos
    exact Real.sqrt_pos.mp hpos
  unfold l2norm normalizeRow
  rw [hn, List.map_map]
  have hfun : ((fun x => x * x) ∘ fun x => x / l2norm v) =
      fun x => (x * x) * (l2norm v * l2norm v)⁻¹ := by
    funext x
    simp only [Function.comp_apply]
    ring
  rw [hfun, List.sum_map_mul_right, hS, mul_inv_cancel₀ (ne_of_gt hSpos), Real.sqrt_one]

/-- `.t()` on a rectangular 2-D tensor (source lines 93–94): row `i` of the
result is column `i` of the argument. -/
def transposeMat (A : Tensor) : Tensor :=
  (List.range (width A)).map (fun i => A.map (fun r => r.getD i 0))

theorem width_eq_of_forall {A : Tensor} {D : ℕ} (hne : A ≠ [])
    (h : ∀ r ∈ A, r.length = D) : width A = D := by
  cases A with
  | nil => exact absurd rfl hne
  | cons a t => exact h a (List.mem_cons_self a t)

theorem length_transposeMat (A : Tensor) : (transposeMat A).length = width A := by
  simp [transposeMat]

theorem row_length_transposeMat (A : Tensor) : ∀ r ∈ transposeMat A, r.length = A.length := by
  intro r hr
  rcases List.mem_map.mp hr with ⟨i, _, rfl⟩
  simp

theorem getCol_transposeMat (M : Tensor) (j : ℕ) (hj : j < M.length)
    (hlen : (M.getD j []).length = width M) :
    getCol (transposeMat M) j = M.getD j [] := by
  unfold getCol transposeMat
  rw [List.map_map]
  apply List.ext_getElem
  · simp only [List.length_map, List.length_range]
    exact hlen.symm
  · intro i h1 h2
    simp only [List.getElem_map, List.getElem_range, Function.comp_apply]
    rw [getD_map_of_lt _ M hj _ [], List.getD_eq_getElem _ 0 h2]

/-- A reference batch: the encoder embeddings of the batch inputs (the
encoder itself is an external collaborator) paired with the batch's
integer labels. -/
abbrev Batch := Tensor × List ℕ

/-- `training_epoch_end` (source lines 77–95): `self.resnet.eval()` puts
the encoder in evaluation mode; each batch is embedded, row-normalized and
appended; `torch.cat` concatenates, raising on an empty list when the
reference iterator yielded nothing — in which case `self.resnet.train()`
on line 95 is never executed and the module is left in evaluation mode;
on success the bank is stored as the `D×N` transpose together with the
concatenated labels, and training mode is restored.  Returns the module
state after the call and the raised error, if any. -/
noncomputable def training_epoch_end (m : BenchmarkModule) (data : List Batch) :
    BenchmarkModule × Option String :=
  let m1 : BenchmarkModule := { m with resnet_training := false }
  if data.isEmpty then
    (m1, some "RuntimeError: torch.cat expected a non-empty list of Tensors")
  else
    let feature_bank := (data.map (fun b => b.1.map normalizeRow)).flatten
    let targets_bank := (data.map Prod.snd).flatten
    ({ m1 with
        bank := some (transposeMat feature_bank, targets_bank),
        resnet_training := true }, none)

/-- `validation_step` (source lines 97–107): when the bank attributes have
never been assigned the `hasattr` test fails, the whole body is skipped
and Python returns `None`; otherwise the batch is embedded, normalized and
classified against the bank, returning the batch size and the number of
queries whose top-ranked class equals the target. -/
noncomputable def validation_step (m : BenchmarkModule) (batch : Batch) : Option (ℕ × ℝ) :=
  match m.bank with
  | none => none
  | some (feature_bank, targets_bank) =>
      let feature := batch.1.map normalizeRow
      let pred_labels :=
        knn_predict feature feature_bank targets_bank m.classes m.knn_k m.knn_t
      let num := batch.1.length
      let top1 := ((List.zip (pred_labels.map (fun r => r.headD 0)) batch.2).map
        (fun p => if p.1 = p.2 then (1 : ℝ) else 0)).sum
      some (num, top1)

/-- Counterexample to C4 as stated: on an empty reference iterator the
builder does not produce an `N = 0` bank — `torch.cat` raises and the
bank attribute still holds no tensor pair. -/
theorem training_epoch_end_empty_iterator_raises :
    (training_epoch_end sampleModule []).2 =
      some "RuntimeError: torch.cat expected a non-empty list of Tensors" ∧
    (training_epoch_end sampleModule []).1.bank = none := by
  constructor <;> rfl

/-- C4 (amended): before any bank has been built, every validation step
skips classification entirely — no kNN prediction is attempted and no
prediction is produced — while an empty reference iterator makes the
builder raise instead of producing an `N = 0` bank. -/
theorem validation_step_skips_without_bank
    (m : BenchmarkModule) (batch : Batch) (h : m.bank = none) :
    validation_step m batch = none ∧
    ∀ m2 : BenchmarkModule, (training_epoch_end m2 []).2.isSome = true := by
  constructor
  · unfold validation_step
    rw [h]
  · intro m2
    rfl

theorem validation_step_skips_without_bank_witness :
    validation_step sampleModule ([[1, 0]], [0]) = none ∧
    ∀ m2 : BenchmarkModule, (training_epoch_end m2 []).2.isSome = true :=
  validation_step_skips_without_bank sampleModule ([[1, 0]], [0]) rfl

/-- C6: the builder switches the encoder to evaluation mode, but the
restoring `self.resnet.train()` is not protected by `try/finally`: when
the empty reference iterator makes `torch.cat` raise, the call errors out
with the encoder still in evaluation mode; only the non-raising path
restores training mode. -/
theorem training_epoch_end_mode_not_restored_on_error (m : BenchmarkModule) :
    (training_epoch_end m []).2 ≠ none ∧
    (training_epoch_end m []).1.resnet_training = false ∧
    ∀ data : List Batch, data ≠ [] →
      (training_epoch_end m data).1.resnet_training = true := by
  refine ⟨by simp [training_epoch_end], rfl, ?_⟩
  intro data hd
  unfold training_epoch_end
  rw [if_neg (by simpa using hd)]

theorem training_epoch_end_mode_not_restored_on_error_witness :
    (training_epoch_end sampleModule []).2 ≠ none ∧
    (training_epoch_end sampleModule []).1.resnet_training = false ∧
    (training_epoch_end sampleModule [([[1, 0]], [0])]).1.resnet_training = true := by
  have h := training_epoch_end_mode_not_restored_on_error sampleModule
  exact ⟨h.1, h.2.1, h.2.2 [([[1, 0]], [0])] (by simp)⟩

/-- C3: for a non-empty reference iterator whose embedding rows all have
width `D` and clear the normalization eps, and whose batches carry as many
labels as rows, the epoch-end build succeeds and stores a `D×N` bank with
`N` the total number of reference samples, every column of unit L2 norm,
and a length-`N` label vector aligned column-for-column with the bank:
column `j` is the normalized embedding of sample `j`. -/
theorem training_epoch_end_builds_unit_bank
    (m : BenchmarkModule) (data : List Batch) (D : ℕ)
    (hrows : ∀ b ∈ data, ∀ r ∈ b.1, r.length = D)
    (halign : ∀ b ∈ data, b.1.length = b.2.length)
    (hnz : ∀ b ∈ data, ∀ r ∈ b.1, normEps ≤ l2norm r)
    (hne : (data.map (fun b => b.1)).flatten ≠ []) :
    ∃ bk labs,
      (training_epoch_end m data).1.bank = some (bk, labs) ∧
      (training_epoch_end m data).2 = none ∧
      bk.length = D ∧
      (∀ r ∈ bk, r.length = (data.map (fun b => b.1)).flatten.length) ∧
      labs = (data.map Prod.snd).flatten ∧
      labs.length = (data.map (fun b => b.1)).flatten.length ∧
      ∀ j, j < (data.map (fun b => b.1)).flatten.length →
        getCol bk j = normalizeRow ((data.map (fun b => b.1)).flatten.getD j []) ∧
        l2norm (getCol bk j) = 1 := by
  set allRows := (data.map (fun b => b.1)).flatten with hallRows
  have hallD : ∀ r ∈ allRows, r.length = D := by
    intro r hr
    rcases List.mem_flatten.mp hr with ⟨rows, hrowsmem, hrmem⟩
    rcases List.mem_map.mp hrowsmem with ⟨b, hb, rfl⟩
    exact hrows b hb r hrmem
  have hallnz : ∀ r ∈ allRows, normEps ≤ l2norm r := by
    intro r hr
    rcases List.mem_flatten.mp hr with ⟨rows, hrowsmem, hrmem⟩
    rcases List.mem_map.mp hrowsmem with ⟨b, hb, rfl⟩
    exact hnz b hb r hrmem
  have hdata : data ≠ [] := by
    intro hd
    rw [hd] at hallRows
    exact hne (by rw [hallRows]; rfl)
  have hM : (data.map (fun b => b.1.map normalizeRow)).flatten = allRows.map normalizeRow := by
    rw [hallRows, List.map_flatten, List.map_map]
    rfl
  set M := allRows.map normalizeRow with hMdef
  have hMrows : ∀ r ∈ M, r.length = D := by
    intro r hr
    rcases List.mem_map.mp hr with ⟨r0, hr0, rfl⟩
    rw [length_normalizeRow]
    exact hallD r0 hr0
  have hMne : M ≠ [] := by
    rw [hMdef]
    intro hc
    exact hne (List.map_eq_nil_iff.mp hc)
  have hwidthM : width M = D := width_eq_of_forall hMne hMrows
  have hMlen : M.length = allRows.length := List.length_map allRows normalizeRow
  have hrun : training_epoch_end m data =
      (({ m with
            bank := some (transposeMat M, (data.map Prod.snd).flatten),
            resnet_training := true } : BenchmarkModule), none) := by
    unfold training_epoch_end
    rw [if_neg (by simpa using hdata), hM]
  refine ⟨transposeMat M, (data.map Prod.snd).flatten, by rw [hrun], by rw [hrun], ?_, ?_,
    rfl, ?_, ?_⟩
  · rw [length_transposeMat, hwidthM]
  · intro r hr
    rw [row_length_transposeMat M r hr, hMlen]
  · rw [List.length_flatten, List.length_flatten, List.map_map, List.map_map]
    congr 1
    apply List.map_congr_left
    intro b hb
    exact (halign b hb).symm
  · intro j hj
    have hjM : j < M.length := by rw [hMlen]; exact hj
    have hgetD : M.getD j [] = normalizeRow (allRows.getD j []) :=
      getD_map_of_lt normalizeRow allRows hj [] []
    have hmemall : allRows.getD j [] ∈ allRows := by
      rw [List.getD_eq_getElem allRows [] hj]
      exact List.getElem_mem hj
    have hcol : getCol (transposeMat M) j = normalizeRow (allRows.getD j []) := by
      rw [getCol_transposeMat M j hjM (by
        rw [hgetD, length_normalizeRow, hwidthM]
        exact hallD _ hmemall), hgetD]
    refine ⟨hcol, ?_⟩
    rw [hcol]
    exact l2norm_normalizeRow _ (hallnz _ hmemall)

/-- One-batch reference data used to instantiate witnesses: a single
sample `[1, 0]` with label `7`. -/
noncomputable def sampleData : List Batch := [([[1, 0]], [7])]

theorem l2norm_sample : l2norm [(1 : ℝ), 0] = 1 := by
  unfold l2norm
  norm_num

theorem training_epoch_end_builds_unit_bank_witness :
    ∃ bk labs,
      (training_epoch_end sampleModule sampleData).1.bank = some (bk, labs) ∧
      (training_epoch_end sampleModule sampleData).2 = none ∧
      bk.length = 2 ∧
      (∀ r ∈ bk, r.length = (sampleData.map (fun b => b.1)).flatten.length) ∧
      labs = (sampleData.map Prod.snd).flatten ∧
      labs.length = (sampleData.map (fun b => b.1)).flatten.length ∧
      ∀ j, j < (sampleData.map (fun b => b.1)).flatten.length →
        getCol bk j = normalizeRow ((sampleData.map (fun b => b.1)).flatten.getD j []) ∧
        l2norm (getCol bk j) = 1 := by
  refine training_epoch_end_builds_unit_bank sampleModule sampleData 2 ?_ ?_ ?_ ?_
  · intro b hb
    simp only [sampleData, List.mem_singleton] at hb
    subst hb
    intro r hr
    simp only [List.mem_singleton] at hr
    subst hr
    rfl
  · intro b hb
    simp only [sampleData, List.mem_singleton] at hb
    subst hb
    rfl
  · intro b hb
    simp only [sampleData, List.mem_singleton] at hb
    subst hb
    intro r hr
    simp only [List.mem_singleton] at hr
    subst hr
    rw [l2norm_sample]
    norm_num [normEps]
  · simp [sampleData]

/-- The fallible embedding of a `knn_predict` call: each `torch` operation
performs its runtime checks in execution order.  `torch.mm` raises on an
inner-dimension mismatch; `topk` raises when `knn_k` exceeds the row
length `N`; `gather` raises when a selected index reaches past the label
vector; `scatter` raises when a gathered label lies outside
`[0, classes)`.  The division by `knn_t` and the exponential raise nothing
(floating-point semantics), and no check anywhere inspects `knn_k ≤ 0` or
the sign of `knn_t`. -/
noncomputable def knn_predict_run (feature feature_bank : Tensor) (feature_labels : List ℕ)
    (classes knn_k : ℕ) (knn_t : ℝ) : Except String (List (List ℕ)) :=
  if width feature ≠ feature_bank.length then
    Except.error "RuntimeError: mat1 and mat2 shapes cannot be multiplied"
  else
    let sim_matrix := mmMat feature feature_bank
    if width feature_bank < knn_k then
      Except.error "RuntimeError: selected index k out of range"
    else
      let sim_indices := topkIndices sim_matrix knn_k
      if ∃ r ∈ sim_indices, ∃ j ∈ r, feature_labels.length ≤ j then
        Except.error "RuntimeError: index out of bounds in gather"
      else
        let sim_labels := gatherRows feature_labels sim_indices
        if ∃ r ∈ sim_labels, ∃ l ∈ r, classes ≤ l then
          Except.error "RuntimeError: scatter index out of bounds"
        else
          Except.ok (argsortRows (scoreRows sim_labels
            (expDivRows (topkValues sim_matrix knn_k) knn_t) classes))

/-- C5 (amended): a query/bank inner-dimension mismatch raises at the
matrix multiply and `knn_k > N` raises at `topk`, both at call time; but
there is no other eager validation — whenever the inner dimensions agree,
`knn_k ≤ N`, the label vector is at least as long as the bank is wide and
its entries lie in `[0, classes)`, the call succeeds, including for
`knn_k = 0`, non-positive temperatures, and label vectors strictly longer
than the bank (whose excess entries are silently ignored). -/
theorem knn_predict_run_checks
    (feature bank : Tensor) (labels : List ℕ) (classes k : ℕ) (t : ℝ) :
    (width feature ≠ bank.length →
      knn_predict_run feature bank labels classes k t =
        Except.error "RuntimeError: mat1 and mat2 shapes cannot be multiplied") ∧
    (width feature = bank.length → width bank < k →
      knn_predict_run feature bank labels classes k t =
        Except.error "RuntimeError: selected index k out of range") ∧
    (width feature = bank.length → k ≤ width bank → width bank ≤ labels.length →
      (∀ l ∈ labels, l < classes) →
      knn_predict_run feature bank labels classes k t =
        Except.ok (knn_predict feature bank labels classes k t)) := by
  refine ⟨?_, ?_, ?_⟩
  · intro h
    unfold knn_predict_run
    rw [if_pos h]
  · intro h hk
    unfold knn_predict_run
    rw [if_neg (by rw [h]; exact fun hc => hc rfl), if_pos hk]
  · intro h hk hlab hcls
    have hidx : ∀ r ∈ topkIndices (mmMat feature bank) k, ∀ j ∈ r, j < width bank := by
      intro r hr j hj
      rcases List.mem_map.mp hr with ⟨row, hrow, rfl⟩
      rcases List.mem_map.mp hrow with ⟨f, _, rfl⟩
      have hlen : ((List.range (width bank)).map (fun j => dot f (getCol bank j))).length =
          width bank := by simp
      have := (mem_sortIdx _ _ _).mp (List.mem_of_mem_take hj)
      rw [hlen] at this
      exact this
    unfold knn_predict_run
    rw [if_neg (by rw [h]; exact fun hc => hc rfl),
      if_neg (not_lt.mpr hk)]
    rw [if_neg (by
      intro hc
      rcases hc with ⟨r, hr, j, hj, hge⟩
      exact absurd (lt_of_lt_of_le (hidx r hr j hj) hlab) (not_lt.mpr hge))]
    rw [if_neg (by
      intro hc
      rcases hc with ⟨r, hr, l, hl, hge⟩
      rcases List.mem_map.mp hr with ⟨r0, hr0, rfl⟩
      rcases List.mem_map.mp hl with ⟨j, hjmem, rfl⟩
      have hjlt : j < labels.length :=
        lt_of_lt_of_le (hidx r0 hr0 j hjmem) hlab
      have : labels.getD j 0 ∈ labels := by
        rw [List.getD_eq_getElem labels 0 hjlt]
        exact List.getElem_mem hjlt
      exact absurd (hcls _ this) (not_lt.mpr hge))]
    rfl

theorem knn_predict_run_checks_witness :
    knn_predict_run [[1]] [[1], [0]] [0] 2 1 1 =
      Except.error "RuntimeError: mat1 and mat2 shapes cannot be multiplied" ∧
    knn_predict_run [[1, 0]] [[1], [0]] [0] 2 5 1 =
      Except.error "RuntimeError: selected index k out of range" ∧
    knn_predict_run [[1, 0]] [[1], [0]] [0] 1 1 1 =
      Except.ok (knn_predict [[1, 0]] [[1], [0]] [0] 1 1 1) := by
  refine ⟨(knn_predict_run_checks [[1]] [[1], [0]] [0] 2 1 1).1 (by norm_num [width]),
    (knn_predict_run_checks [[1, 0]] [[1], [0]] [0] 2 5 1).2.1 (by norm_num [width])
      (by norm_num [width]),
    (knn_predict_run_checks [[1, 0]] [[1], [0]] [0] 1 1 1).2.2 (by norm_num [width])
      (by norm_num [width]) (by norm_num [width]) (by decide)⟩

/-- Counterexample to C5 as stated: a call with `knn_k = 0` (which is
non-positive), a negative temperature, and a label vector longer than the
bank is wide raises nothing — it succeeds and returns a ranking. -/
theorem knn_predict_run_accepts_invalid_config :
    knn_predict_run [[1, 0]] [[1], [0]] [0, 5] 2 0 (-1) = Except.ok [[0, 1]] := by
  have hsim : mmMat [[(1 : ℝ), 0]] [[1], [0]] = [[1]] := by
    simp [mmMat, width, dot, getCol, show List.range 1 = [0] from rfl]
  have htopk : topkIndices [[(1 : ℝ)]] 0 = [[]] := by
    simp [topkIndices]
  have htopv : topkValues [[(1 : ℝ)]] 0 = [[]] := by
    simp [topkValues]
  have hgather : gatherRows [0, 5] [[]] = [[]] := by
    simp [gatherRows]
  have hexp : expDivRows [[]] (-1) = [[]] := by
    simp [expDivRows]
  have hscore : scoreRows [[]] [[]] 2 = [[0, 0]] := by
    simp [scoreRows, List.range_succ]
  have hargsort : argsortRows [[(0 : ℝ), 0]] = [[0, 1]] := by
    unfold argsortRows sortIdx
    simp only [List.map_cons, List.map_nil, List.length_cons, List.length_nil]
    rw [show List.range (0 + 1 + 1) = [0, 1] from rfl]
    simp only [List.insertionSort, List.orderedInsert]
    rw [if_pos (show rankRel (fun c => ([(0 : ℝ), 0]).getD c 0) 0 1 from
      Or.inr ⟨rfl, by norm_num⟩)]
  unfold knn_predict_run
  rw [if_neg (by norm_num [width])]
  rw [hsim]
  rw [if_neg (by norm_num [width])]
  rw [htopk]
  rw [if_neg (by simp)]
  rw [hgather]
  rw [if_neg (by simp)]
  rw [htopv, hexp, hscore, hargsort]

theorem getD_concat_self {α : Type} (l : List α) (v d : α) :
    (l ++ [v]).getD l.length d = v := by
  rw [List.getD_eq_getElem?_getD, List.getElem?_concat_length]
  rfl

theorem getD_append_lt {α : Type} (l l2 : List α) (a : ℕ) (ha : a < l.length) (d : α) :
    (l ++ l2).getD a d = l.getD a d := by
  rw [List.getD_eq_getElem?_getD, List.getD_eq_getElem?_getD, List.getElem?_append_left ha]

/-- A runtime tensor value: a real matrix, a natural-number matrix, or a
1-D label vector. -/
inductive TVal where
  | rmat : List (List ℝ) → TVal
  | nmat : List (List ℕ) → TVal
  | nvec : List ℕ → TVal

/-- The tensor store: every tensor lives at an address. -/
abbrev THeap := List TVal

/-- Allocation of a fresh tensor at the end of the store. -/
def allocT (h : THeap) (v : TVal) : THeap × ℕ := (h ++ [v], h.length)

def readRMat (h : THeap) (a : ℕ) : List (List ℝ) :=
  match h.getD a (TVal.rmat []) with
  | TVal.rmat x => x
  | _ => []

def readNMat (h : THeap) (a : ℕ) : List (List ℕ) :=
  match h.getD a (TVal.nmat []) with
  | TVal.nmat x => x
  | _ => []

def readNVec (h : THeap) (a : ℕ) : List ℕ :=
  match h.getD a (TVal.nvec []) with
  | TVal.nvec x => x
  | _ => []

theorem readRMat_concat_self (h : THeap) (x : List (List ℝ)) :
    readRMat (h ++ [TVal.rmat x]) h.length = x := by
  unfold readRMat
  rw [getD_concat_self]

theorem readNMat_concat_self (h : THeap) (x : List (List ℕ)) :
    readNMat (h ++ [TVal.nmat x]) h.length = x := by
  unfold readNMat
  rw [getD_concat_self]

theorem readRMat_append_lt (h l : THeap) (a : ℕ) (ha : a < h.length) :
    readRMat (h ++ l) a = readRMat h a := by
  unfold readRMat
  rw [getD_append_lt _ _ _ ha]

theorem readNMat_append_lt (h l : THeap) (a : ℕ) (ha : a < h.length) :
    readNMat (h ++ l) a = readNMat h a := by
  unfold readNMat
  rw [getD_append_lt _ _ _ ha]

theorem getD_append_length_add {α : Type} (l l2 : List α) (i : ℕ) (d : α) :
    (l ++ l2).getD (l.length + i) d = l2.getD i d := by
  rw [List.getD_eq_getElem?_getD, List.getD_eq_getElem?_getD,
    List.getElem?_append_right (by omega), Nat.add_sub_cancel_left]

theorem readRMat_append_length_add (h l : THeap) (i : ℕ) :
    readRMat (h ++ l) (h.length + i) = readRMat l i := by
  unfold readRMat
  rw [getD_append_length_add]

theorem readNMat_append_length_add (h l : THeap) (i : ℕ) :
    readNMat (h ++ l) (h.length + i) = readNMat l i := by
  unfold readNMat
  rw [getD_append_length_add]

theorem readRMat_append_length (h l : THeap) :
    readRMat (h ++ l) h.length = readRMat l 0 := by
  have := readRMat_append_length_add h l 0
  simpa using this

theorem readNMat_append_length (h l : THeap) :
    readNMat (h ++ l) h.length = readNMat l 0 := by
  have := readNMat_append_length_add h l 0
  simpa using this

/-- `knn_predict` in heap-passing form: the three inputs are read from the
store, every intermediate result (`torch.mm`, the two `topk` outputs,
`gather`, the reweighted similarities, the scattered one-hot scores,
`argsort`) is a fresh allocation, and no existing address is ever written
— matching the source, which uses only out-of-place operations. -/
noncomputable def knn_predict_heap (h : THeap) (aFeature aBank aLabels : ℕ)
    (classes knn_k : ℕ) (knn_t : ℝ) : THeap × ℕ :=
  let feature := readRMat h aFeature
  let feature_bank := readRMat h aBank
  let feature_labels := readNVec h aLabels
  let s1 := allocT h (TVal.rmat (mmMat feature feature_bank))
  let sim_matrix := readRMat s1.1 s1.2
  let s2 := allocT s1.1 (TVal.rmat (topkValues sim_matrix knn_k))
  let s3 := allocT s2.1 (TVal.nmat (topkIndices sim_matrix knn_k))
  let sim_weight := readRMat s3.1 s2.2
  let sim_indices := readNMat s3.1 s3.2
  let s4 := allocT s3.1 (TVal.nmat (gatherRows feature_labels sim_indices))
  let sim_labels := readNMat s4.1 s4.2
  let s5 := allocT s4.1 (TVal.rmat (expDivRows sim_weight knn_t))
  let sim_weight2 := readRMat s5.1 s5.2
  let s6 := allocT s5.1 (TVal.rmat (scoreRows sim_labels sim_weight2 classes))
  let pred_scores := readRMat s6.1 s6.2
  allocT s6.1 (TVal.nmat (argsortRows pred_scores))

/-- C9: the call mutates no existing tensor — every address that existed
before the call still holds its old value afterwards, in particular the
three inputs — and the returned ranking is the pure function
`knn_predict` of the values read at the input addresses, so two calls on
identical inputs return identical rankings. -/
theorem knn_predict_heap_no_mutation_and_pure
    (h : THeap) (aFeature aBank aLabels classes knn_k : ℕ) (knn_t : ℝ) :
    (∀ a, a < h.length → ∀ d,
      (knn_predict_heap h aFeature aBank aLabels classes knn_k knn_t).1.getD a d =
        h.getD a d) ∧
    readNMat (knn_predict_heap h aFeature aBank aLabels classes knn_k knn_t).1
        (knn_predict_heap h aFeature aBank aLabels classes knn_k knn_t).2 =
      knn_predict (readRMat h aFeature) (readRMat h aBank) (readNVec h aLabels)
        classes knn_k knn_t := by
  constructor
  · intro a ha d
    simp only [knn_predict_heap, allocT, List.append_assoc]
    exact getD_append_lt h _ a ha d
  · simp only [knn_predict_heap, allocT]
    repeat
      first
      | rw [readRMat_concat_self]
      | rw [readNMat_concat_self]
      | rw [readRMat_append_lt _ _ _
          (by simp only [List.length_append, List.length_cons, List.length_nil]; omega)]
      | rw [readNMat_append_lt _ _ _
          (by simp only [List.length_append, List.length_cons, List.length_nil]; omega)]
    rfl

/-- A three-cell tensor store holding a query batch, a bank and labels,
used to instantiate the no-mutation witness. -/
noncomputable def sampleHeap : THeap :=
  [TVal.rmat [[1, 0]], TVal.rmat [[1], [0]], TVal.nvec [0]]

theorem knn_predict_heap_no_mutation_and_pure_witness :
    (knn_predict_heap sampleHeap 0 1 2 2 1 1).1.getD 0 (TVal.rmat []) =
      sampleHeap.getD 0 (TVal.rmat []) ∧
    readNMat (knn_predict_heap sampleHeap 0 1 2 2 1 1).1
        (knn_predict_heap sampleHeap 0 1 2 2 1 1).2 =
      knn_predict (readRMat sampleHeap 0) (readRMat sampleHeap 1) (readNVec sampleHeap 2)
        2 1 1 := by
  have h := knn_predict_heap_no_mutation_and_pure sampleHeap 0 1 2 2 1 1
  exact ⟨h.1 0 (by simp [sampleHeap]) (TVal.rmat []), h.2⟩

end KnnPredictor
